/-
Verification of the WiFi motion-sensor telemetry system
(sensor firmware `esp32c3-rust/esp-hacathon/src/bin/main.rs` and the
host ingester/TUI `host-tuis/hello_test/src/main.rs`).

The sensor-side scan loop (baseline tracking, motion detection, telemetry
encoding) and the host-side serial ingester (line reassembly, strict JSON
decoding, bounded message log) are shallowly embedded here.  Machine
integers (i8/i16/u32) are modelled as `Int`/`Nat` with explicit two's
complement wrapping where the source performs fixed-width arithmetic.
-/
import Mathlib

/-! ## Fixed-width integer helpers

Rust release-profile arithmetic on `i8`/`i16` wraps on overflow and `as`
casts truncate; both are modelled by reduction into the two's-complement
range.  `tdiv` is Rust's `/` on signed integers: truncation toward zero
(the divisor is the positive literal 100 everywhere it is used). -/

/-- Two's-complement wrap into the `i8` range [-128, 127]. -/
def wrap8 (x : Int) : Int := (x + 128) % 256 - 128

/-- Two's-complement wrap into the `i16` range [-32768, 32767]. -/
def wrap16 (x : Int) : Int := (x + 32768) % 65536 - 32768

/-- Truncating (toward-zero) division, Rust's `/` on signed integers. -/
def tdiv (a b : Int) : Int := if 0 ≤ a then a / b else -((-a) / b)

/-- Rust `i8::abs` with release-profile overflow semantics:
`(-128 : i8).abs()` wraps back to `-128`. -/
def i8abs (x : Int) : Int := wrap8 (if x < 0 then -x else x)

/-- The delta `(rssi - baseline_rssi[bidx]).abs()` exactly as in the source: the subtraction and
the absolute value are performed in `i8` (main.rs line 108). -/
def rssiDelta (rssi baseline : Int) : Int := i8abs (wrap8 (rssi - baseline))

/-- The exponential-moving-average baseline update
`((baseline as i16 * 90 + rssi as i16 * 10) / 100) as i8`
(main.rs lines 114-115): products and sum in `i16`, truncating division,
narrowed back to `i8`. -/
def emaUpdate (baseline rssi : Int) : Int :=
  wrap8 (tdiv (wrap16 (wrap16 (baseline * 90) + wrap16 (rssi * 10))) 100)

/-! ## BaselineTracker (sensor side, main.rs lines 56-120) -/

/-- UTF-8 byte length of a `Char`, as Rust's `char::len_utf8`. -/
def charBytes (c : Char) : Nat :=
  if c.toNat < 128 then 1
  else if c.toNat < 2048 then 2
  else if c.toNat < 65536 then 3
  else 4

/-- UTF-8 byte length of a string, as Rust's `str::len`. -/
def byteLen (s : String) : Nat := s.toList.foldl (fun n c => n + charBytes c) 0

/-- The conversion `heapless::String::<32>::try_from(ssid_str).unwrap_or_default()`
(main.rs lines 83-84): names longer than 32 bytes collapse to `""`. -/
def ssidOwned (s : String) : String := if byteLen s ≤ 32 then s else ""

/-- One observed network of a scan cycle:
`ssid` is the raw scan string, `rssi` the i8 signal, `channel` the u8. -/
structure Obs where
  ssid : String
  rssi : Int
  channel : Nat
deriving DecidableEq

/-- One entry of the parallel arrays `baseline_ssid` / `baseline_rssi`
(main.rs lines 60-61), paired by index. -/
structure Slot where
  ssid : Option String
  rssi : Int
deriving DecidableEq

/-- Initial table: `baseline_ssid = [None; 10]`, `baseline_rssi = [-100; 10]`. -/
def initSlots : List Slot := List.replicate 10 ⟨none, -100⟩

/-- First index whose slot holds exactly this name
(the search loop, main.rs lines 87-95). -/
def findIdx (slots : List Slot) (name : String) : Option Nat :=
  slots.findIdx? (fun sl => sl.ssid = some name)

/-- Number of occupied slots. -/
def occupiedCount (slots : List Slot) : Nat :=
  (slots.filter (fun sl => sl.ssid.isSome)).length

/-- The body of the per-observation loop (main.rs lines 80-120, minus the
output echo): match by name; if unmatched and the slot at this
observation's index `idx` is free, allocate it; if a slot was matched or
allocated, run the delta check and the EMA baseline update. -/
def processObs (counter : Nat) (idx : Nat) (slots : List Slot) (motion : Bool)
    (o : Obs) : List Slot × Bool :=
  let owned := ssidOwned o.ssid
  let found := findIdx slots owned
  let alloc :=
    if found.isNone ∧ idx < 10 then
      if (slots.getD idx ⟨none, -100⟩).ssid.isNone then
        (slots.set idx ⟨some owned, o.rssi⟩, some idx)
      else (slots, found)
    else (slots, found)
  match alloc with
  | (slots1, some b) =>
    let base := (slots1.getD b ⟨none, -100⟩).rssi
    let motion1 := if 4 < rssiDelta o.rssi base ∧ 5 < counter then true else motion
    (slots1.set b ⟨(slots1.getD b ⟨none, -100⟩).ssid, emaUpdate base o.rssi⟩, motion1)
  | (slots1, none) => (slots1, motion)

/-- The per-cycle loop over the (at most 10) observations, threading the
slot table and the motion flag; `idx` is the enumeration index. -/
def runObs (counter : Nat) : Nat → List Slot → Bool → List Obs → List Slot × Bool
  | _, slots, motion, [] => (slots, motion)
  | idx, slots, motion, o :: os =>
    let r := processObs counter idx slots motion o
    runObs counter (idx + 1) r.1 r.2 os

/-- Result of one tracker cycle: updated table, motion flag, and the echoed
`rssi_values` output list. -/
structure UpdateResult where
  slots : List Slot
  motion : Bool
  echo : List (String × Int × Nat)
deriving DecidableEq

namespace BaselineTracker

/-- One full tracker cycle (main.rs lines 76-120): `motion_detected` starts
false, the loop runs over `scan_results.iter().take(10).enumerate()`, and
every observation is echoed to `rssi_values` with its raw ssid (the push
at line 119 is unconditional and independent of tracking, so it is
modelled as a map over the same truncated observation list). -/
def update (counter : Nat) (slots : List Slot) (obs : List Obs) : UpdateResult :=
  let obs10 := obs.take 10
  let r := runObs counter 0 slots false obs10
  ⟨r.1, r.2, obs10.map (fun o => (o.ssid, o.rssi, o.channel))⟩

end BaselineTracker

/-! ## TelemetryCodec

Encoder: the exact `write!`/`writeln!` format strings of main.rs lines
123-137.  Decoder: the host's `serde_json::from_str::<Esp32Data>` (host
main.rs line 102), modelled as a strict recursive-descent parser of the
telemetry object grammar — single-line, no interior whitespace, strings
without escapes (a backslash or a raw control character in a string is a
decode failure, as it is for strict JSON on the inputs this encoder can
produce), numeric fields bound-checked against their Rust target types
(u32 / u8 / i8), and no trailing characters. -/

/-- One element of the host's `aps` vector (`AccessPoint`, host main.rs
lines 12-17): `rssi : i8`, `ch : u8`. -/
structure AP where
  ssid : String
  rssi : Int
  ch : Nat
deriving DecidableEq

/-- The host's `Esp32Data` (host main.rs lines 19-24): `counter : u32`,
`motion : u8`. -/
structure Esp32Data where
  counter : Nat
  motion : Nat
  aps : List AP
deriving DecidableEq

/-- Decimal digit character. -/
def digitChar (n : Nat) : Char := Char.ofNat (48 + n)

/-- Fuel-driven decimal rendering; `fuel > n` always suffices because the
argument shrinks by a factor of 10 each step. -/
def natCharsAux : Nat → Nat → List Char
  | 0, _ => []
  | fuel + 1, n =>
    if n < 10 then [digitChar n]
    else natCharsAux fuel (n / 10) ++ [digitChar (n % 10)]

/-- Decimal rendering of a `Nat`, as Rust's `Display` for unsigned ints. -/
def natChars (n : Nat) : List Char := natCharsAux (n + 1) n

/-- Decimal rendering as a `String`. -/
def natString (n : Nat) : String := String.mk (natChars n)

/-- Decimal rendering of an `Int`, as Rust's `Display` for signed ints. -/
def intChars (i : Int) : List Char :=
  if i < 0 then '-' :: natChars (-i).toNat else natChars i.toNat

/-- Literal `{"counter":` (start of the telemetry line format string). -/
def litCounter : List Char := "\x7b\"counter\":".toList

/-- Literal `,"motion":`. -/
def litMotion : List Char := ",\"motion\":".toList

/-- Literal `,"aps":[`. -/
def litAps : List Char := ",\"aps\":[".toList

/-- Literal `{"ssid":"` (start of one AP object). -/
def litSsid : List Char := "\x7b\"ssid\":\"".toList

/-- Literal `,"rssi":` (follows the ssid's closing quote). -/
def litRssi : List Char := ",\"rssi\":".toList

/-- Literal `,"ch":`. -/
def litCh : List Char := ",\"ch\":".toList

/-- Literal `}` closing an object. -/
def litClose : List Char := "\x7d".toList

/-- One AP object: `{"ssid":"<ssid>","rssi":<rssi>,"ch":<ch>}`
(main.rs line 132). -/
def encodeAP (a : AP) : List Char :=
  litSsid ++ a.ssid.toList ++ '"' :: litRssi ++ intChars a.rssi ++
    litCh ++ natChars a.ch ++ litClose

/-- Second and later AP objects, each preceded by `,` (main.rs lines 128-131). -/
def encodeAPsTail : List AP → List Char
  | [] => []
  | a :: rest => ',' :: (encodeAP a ++ encodeAPsTail rest)

/-- The comma-separated AP array body. -/
def encodeAPs : List AP → List Char
  | [] => []
  | a :: rest => encodeAP a ++ encodeAPsTail rest

/-- The full telemetry line body (without the trailing newline):
`{"counter":<c>,"motion":<0|1>,"aps":[...]}` (main.rs lines 123-137). -/
def encodeBody (counter : Nat) (motion : Bool) (aps : List AP) : List Char :=
  litCounter ++ natChars counter ++ litMotion ++
    natChars (if motion then 1 else 0) ++ litAps ++ encodeAPs aps ++
    ']' :: litClose

/-- The line as written to the UART, newline-terminated (`writeln!`). -/
def encodeLine (counter : Nat) (motion : Bool) (aps : List AP) : List Char :=
  encodeBody counter motion aps ++ ['\n']

/-- ASCII decimal digit test. -/
def isDigit (c : Char) : Bool := 48 ≤ c.toNat ∧ c.toNat ≤ 57

/-- Value of a digit run. -/
def digitsVal (ds : List Char) : Nat :=
  ds.foldl (fun a c => a * 10 + (c.toNat - 48)) 0

/-- Parse a nonempty maximal digit run. -/
def parseNat (cs : List Char) : Option (Nat × List Char) :=
  let ds := cs.takeWhile isDigit
  if ds = [] then none else some (digitsVal ds, cs.dropWhile isDigit)

/-- Parse an optionally `-`-signed decimal integer. -/
def parseIntChars (cs : List Char) : Option (Int × List Char) :=
  if cs.head? = some '-' then
    (parseNat cs.tail).map (fun p => (-(p.1 : Int), p.2))
  else
    (parseNat cs).map (fun p => ((p.1 : Int), p.2))

/-- Consume an expected literal prefix. -/
def expects : List Char → List Char → Option (List Char)
  | [], s => some s
  | _ :: _, [] => none
  | p :: ps, c :: cs => if c = p then expects ps cs else none

/-- Parse a JSON string body up to (and consuming) the closing quote.
Backslashes and raw control characters are rejected (strict decode; the
encoder never escapes, so any such byte makes the line ill-formed). -/
def parseStrBody : List Char → Option (List Char × List Char)
  | [] => none
  | c :: cs =>
    if c = '"' then some ([], cs)
    else if c = '\\' ∨ c.toNat < 32 then none
    else (parseStrBody cs).map (fun p => (c :: p.1, p.2))

/-- Parse one AP object, bound-checking `rssi : i8` and `ch : u8`. -/
def parseAP (s : List Char) : Option (AP × List Char) :=
  (expects litSsid s).bind fun s1 =>
  (parseStrBody s1).bind fun p1 =>
  (expects litRssi p1.2).bind fun s2 =>
  (parseIntChars s2).bind fun p2 =>
  if -128 ≤ p2.1 ∧ p2.1 ≤ 127 then
    (expects litCh p2.2).bind fun s3 =>
    (parseNat s3).bind fun p3 =>
    if p3.1 ≤ 255 then
      (expects litClose p3.2).map fun s4 => (⟨String.mk p1.1, p2.1, p3.1⟩, s4)
    else none
  else none

/-- Parse `("," <ap>)* "]"`, fuel-bounded (each step consumes the comma, so
fuel at least the remaining input length always suffices). -/
def parseAPsGo : Nat → List Char → Option (List AP × List Char)
  | fuel, s =>
    if s.head? = some ']' then some ([], s.tail)
    else if s.head? = some ',' then
      match fuel with
      | 0 => none
      | fuel' + 1 =>
        (parseAP s.tail).bind fun p =>
        (parseAPsGo fuel' p.2).map fun q => (p.1 :: q.1, q.2)
    else none

/-- Parse the AP array after its opening `[`: empty, or a first AP followed
by comma-separated APs, through the closing `]`. -/
def parseAPs (fuel : Nat) (s : List Char) : Option (List AP × List Char) :=
  if s.head? = some ']' then some ([], s.tail)
  else
    (parseAP s).bind fun p =>
    (parseAPsGo fuel p.2).map fun q => (p.1 :: q.1, q.2)

/-- Strict decode of one trimmed telemetry line into `Esp32Data`
(`serde_json::from_str::<Esp32Data>`, host main.rs line 102): exact field
layout, `counter` checked against u32, `motion` against u8, and no
trailing characters. -/
def decode (s : List Char) : Option Esp32Data :=
  (expects litCounter s).bind fun s1 =>
  (parseNat s1).bind fun p1 =>
  if p1.1 < 4294967296 then
    (expects litMotion p1.2).bind fun s2 =>
    (parseNat s2).bind fun p2 =>
    if p2.1 ≤ 255 then
      (expects litAps p2.2).bind fun s3 =>
      (parseAPs s3.length s3).bind fun p3 =>
      (expects litClose p3.2).bind fun s4 =>
      if s4 = [] then some ⟨p1.1, p2.1, p3.1⟩ else none
    else none
  else none

/-- Decode from a `String`. -/
def decodeStr (s : String) : Option Esp32Data := decode s.toList

/-! ## LineReassembler (host main.rs lines 81-97)

Each loop iteration reads a byte chunk, decodes it in isolation with
`String::from_utf8_lossy` (line 87), appends the decoded text to a
growable `buffer` string (line 88), and repeatedly extracts everything
before the first `'\n'`, trims it, removes it (and the newline) from the
buffer, and keeps the line unless it trims to empty (lines 91-97).
Bytes are modelled as `Nat`s below 256; the buffer holds decoded `Char`s,
as the `String` buffer of the source does.  Because each chunk is decoded
separately, a multibyte UTF-8 character whose bytes are split across two
reads decodes to replacement characters, not to the original character. -/

/-- Fuel-driven worker for the lossy UTF-8 decode: decode UTF-8,
substituting one U+FFFD per maximal subpart of any ill-formed subsequence
(the substitution of maximal subparts policy Rust implements), including
a truncated sequence at the end of the chunk.  Second-byte ranges follow
the UTF-8 table: E0 requires A0-BF, ED requires 80-9F (no surrogates),
F0 requires 90-BF, F4 requires 80-8F (≤ U+10FFFF).  Each step consumes at
least one byte, so fuel at least the input length always suffices. -/
def utf8LossyAux : Nat → List Nat → List Char
  | 0, _ => []
  | _ + 1, [] => []
  | fuel + 1, b :: rest =>
    if b ≤ 0x7F then Char.ofNat b :: utf8LossyAux fuel rest
    else if 0xC2 ≤ b ∧ b ≤ 0xDF then
      match rest with
      | [] => ['�']
      | b2 :: rest2 =>
        if 0x80 ≤ b2 ∧ b2 ≤ 0xBF then
          Char.ofNat ((b - 0xC0) * 64 + (b2 - 0x80)) :: utf8LossyAux fuel rest2
        else '�' :: utf8LossyAux fuel rest
    else if 0xE0 ≤ b ∧ b ≤ 0xEF then
      match rest with
      | [] => ['�']
      | b2 :: rest2 =>
        if (b = 0xE0 ∧ 0xA0 ≤ b2 ∧ b2 ≤ 0xBF) ∨
            (0xE1 ≤ b ∧ b ≤ 0xEC ∧ 0x80 ≤ b2 ∧ b2 ≤ 0xBF) ∨
            (b = 0xED ∧ 0x80 ≤ b2 ∧ b2 ≤ 0x9F) ∨
            (0xEE ≤ b ∧ 0x80 ≤ b2 ∧ b2 ≤ 0xBF) then
          match rest2 with
          | [] => ['�']
          | b3 :: rest3 =>
            if 0x80 ≤ b3 ∧ b3 ≤ 0xBF then
              Char.ofNat ((b - 0xE0) * 4096 + (b2 - 0x80) * 64 + (b3 - 0x80)) ::
                utf8LossyAux fuel rest3
            else '�' :: utf8LossyAux fuel rest2
        else '�' :: utf8LossyAux fuel rest
    else if 0xF0 ≤ b ∧ b ≤ 0xF4 then
      match rest with
      | [] => ['�']
      | b2 :: rest2 =>
        if (b = 0xF0 ∧ 0x90 ≤ b2 ∧ b2 ≤ 0xBF) ∨
            (0xF1 ≤ b ∧ b ≤ 0xF3 ∧ 0x80 ≤ b2 ∧ b2 ≤ 0xBF) ∨
            (b = 0xF4 ∧ 0x80 ≤ b2 ∧ b2 ≤ 0x8F) then
          match rest2 with
          | [] => ['�']
          | b3 :: rest3 =>
            if 0x80 ≤ b3 ∧ b3 ≤ 0xBF then
              match rest3 with
              | [] => ['�']
              | b4 :: rest4 =>
                if 0x80 ≤ b4 ∧ b4 ≤ 0xBF then
                  Char.ofNat ((b - 0xF0) * 262144 + (b2 - 0x80) * 4096 +
                    (b3 - 0x80) * 64 + (b4 - 0x80)) :: utf8LossyAux fuel rest4
                else '�' :: utf8LossyAux fuel rest3
            else '�' :: utf8LossyAux fuel rest2
        else '�' :: utf8LossyAux fuel rest
    else '�' :: utf8LossyAux fuel rest

/-- Model of Rust `String::from_utf8_lossy` on one read chunk. -/
def utf8Lossy (bs : List Nat) : List Char := utf8LossyAux bs.length bs

/-- Standard UTF-8 encoding of one Unicode scalar value (what the sensor
transmits for a character and what `from_utf8_lossy` decodes back). -/
def charEnc (c : Char) : List Nat :=
  let n := c.toNat
  if n < 0x80 then [n]
  else if n < 0x800 then [0xC0 + n / 64, 0x80 + n % 64]
  else if n < 0x10000 then [0xE0 + n / 4096, 0x80 + n / 64 % 64, 0x80 + n % 64]
  else [0xF0 + n / 262144, 0x80 + n / 4096 % 64, 0x80 + n / 64 % 64, 0x80 + n % 64]

/-- UTF-8 encoding of a character sequence. -/
def utf8Encode (cs : List Char) : List Nat := (cs.map charEnc).flatten

/-- Split a buffer into its complete (pre-`'\n'`, untrimmed) lines and the
trailing unterminated remainder. -/
def splitBuf : List Char → List (List Char) × List Char
  | [] => ([], [])
  | c :: cs =>
    let r := splitBuf cs
    if c = '\n' then ([] :: r.1, r.2)
    else
      match r.1 with
      | [] => ([], c :: r.2)
      | l :: ls => ((c :: l) :: ls, r.2)

/-- Rust `char::is_whitespace` restricted to the ASCII whitespace the wire
format can carry. -/
def isWs (c : Char) : Bool := c = ' ' ∨ c = '\t' ∨ c = '\n' ∨ c = '\r'

/-- Rust `str::trim`: strip whitespace from both ends. -/
def trimChars (l : List Char) : List Char :=
  ((l.dropWhile isWs).reverse.dropWhile isWs).reverse

/-- Trim each extracted line and drop the ones that trim to empty
(main.rs lines 92-97). -/
def emitLines (ls : List (List Char)) : List String :=
  ((ls.map trimChars).filter (fun l => !l.isEmpty)).map String.mk

/-- The text-side step shared by every feed: append already-decoded text
to the buffer (`buffer.push_str(&chunk)`), extract all complete lines,
return the produced trimmed lines and the new buffer. -/
def feedChars (buf chunk : List Char) : List String × List Char :=
  let r := splitBuf (buf ++ chunk)
  (emitLines r.1, r.2)

/-- One `feed` call on a raw byte chunk, as one loop iteration of
host main.rs lines 86-115: lossy-decode THIS chunk in isolation
(`String::from_utf8_lossy(&read_buf[..n])`), then run the buffer step. -/
def feed (buf : List Char) (chunk : List Nat) : List String × List Char :=
  feedChars buf (utf8Lossy chunk)

/-- Feeding a sequence of byte chunks, collecting all produced lines in
order. -/
def feedAll : List Char → List (List Nat) → List String × List Char
  | buf, [] => ([], buf)
  | buf, ch :: rest =>
    let r := feed buf ch
    let r2 := feedAll r.2 rest
    (r.1 ++ r2.1, r2.2)

/-- Feeding a sequence of already-decoded text chunks (the special case in
which every byte split falls on a character boundary). -/
def feedCharsAll : List Char → List (List Char) → List String × List Char
  | buf, [] => ([], buf)
  | buf, ch :: rest =>
    let r := feedChars buf ch
    let r2 := feedCharsAll r.2 rest
    (r.1 ++ r2.1, r2.2)

/-! ## TelemetryIngester and SharedState (host main.rs lines 26-122) -/

/-- Outcome of one `port.read(&mut read_buf)` call. -/
inductive ReadOutcome where
  | ok (chunk : String)
  | errTimeout
  | errOther
deriving DecidableEq

/-- What the ingester loop does with a read outcome.  `terminate` is the
action §7 of the spec predicts for a non-timeout error; it is part of the
vocabulary so that prediction can be stated. -/
inductive IngestAction where
  | process (chunk : String)
  | backoffRetry
  | terminate
deriving DecidableEq

/-- The match at host main.rs lines 85-120: `Ok(n) if n > 0` processes the
chunk; every other outcome — zero bytes, timeout, or any other error —
falls to the `_` arm, which sleeps 10 ms and retries. -/
def readDispatch : ReadOutcome → IngestAction
  | .ok c => if 0 < c.length then .process c else .backoffRetry
  | .errTimeout => .backoffRetry
  | .errOther => .backoffRetry

/-- The push `messages.push(m)` followed by the cap check
`if messages.len() > 100 { messages.remove(0) }` (lines 104-114). -/
def pushTrim (log : List String) (m : String) : List String :=
  let l := log ++ [m]
  if 100 < l.length then l.drop 1 else l

/-- The `AppState` fields the ingester writes (host main.rs lines 26-30;
`port_name` is set once at startup and never changes). -/
structure HostState where
  latest : Option Esp32Data
  messages : List String
deriving DecidableEq

/-- The log summary pushed for a decoded record (line 104):
`Counter: {} | {} | {} APs`. -/
def summaryLine (d : Esp32Data) : String :=
  "Counter: " ++ natString d.counter ++ " | " ++
    (if 0 < d.motion then "MOTION!" else "still") ++ " | " ++
    natString d.aps.length ++ " APs"

/-- Handling of one complete line (host main.rs lines 101-114): a strict
decode success replaces `latest_data` and logs a summary; a decode failure
logs the raw line behind the `Raw: ` marker and leaves `latest_data`
untouched.  Both paths then apply the 100-entry cap and continue the loop. -/
def handleLine (st : HostState) (line : String) : HostState :=
  match decodeStr line with
  | some d => ⟨some d, pushTrim st.messages (summaryLine d)⟩
  | none => ⟨st.latest, pushTrim st.messages ("Raw: " ++ line)⟩

/-- Names that survive the unescaped encoder untouched: no quote, no
backslash, no raw control character. -/
def cleanSsid (s : String) : Prop := ∀ c ∈ s.toList, c ≠ '"' ∧ c ≠ '\\' ∧ 32 ≤ c.toNat

/-- A wire-valid access point entry: clean name within the 32-byte scan
bound, `rssi` in i8 range, `ch` in u8 range. -/
def validAP (a : AP) : Prop :=
  cleanSsid a.ssid ∧ byteLen a.ssid ≤ 32 ∧ -128 ≤ a.rssi ∧ a.rssi ≤ 127 ∧ a.ch ≤ 255

instance (s : String) : Decidable (cleanSsid s) := by
  unfold cleanSsid; infer_instance

instance (a : AP) : Decidable (validAP a) := by
  unfold validAP; infer_instance

/-! ## Arithmetic helper lemmas -/

theorem wrap8_eq_of_range {x : Int} (h1 : -128 ≤ x) (h2 : x ≤ 127) : wrap8 x = x := by
  unfold wrap8; omega

theorem wrap16_eq_of_range {x : Int} (h1 : -32768 ≤ x) (h2 : x ≤ 32767) : wrap16 x = x := by
  unfold wrap16; omega

theorem tdiv_hundred_range {x : Int} (h1 : -12800 ≤ x) (h2 : x ≤ 12700) :
    -128 ≤ tdiv x 100 ∧ tdiv x 100 ≤ 127 := by
  unfold tdiv; split <;> omega

theorem emaUpdate_eq {b r : Int} (hb1 : -128 ≤ b) (hb2 : b ≤ 127)
    (hr1 : -128 ≤ r) (hr2 : r ≤ 127) :
    emaUpdate b r = tdiv (b * 90 + r * 10) 100 := by
  unfold emaUpdate
  rw [wrap16_eq_of_range (x := b * 90) (by omega) (by omega),
    wrap16_eq_of_range (x := r * 10) (by omega) (by omega)]
  rw [wrap16_eq_of_range (by omega) (by omega)]
  exact wrap8_eq_of_range (tdiv_hundred_range (by omega) (by omega)).1
    (tdiv_hundred_range (by omega) (by omega)).2

theorem emaUpdate_self {r : Int} (hr1 : -128 ≤ r) (hr2 : r ≤ 127) :
    emaUpdate r r = r := by
  rw [emaUpdate_eq hr1 hr2 hr1 hr2]
  have h : r * 90 + r * 10 = r * 100 := by ring
  rw [h]; unfold tdiv; split <;> omega

theorem rssiDelta_self (r : Int) : rssiDelta r r = 0 := by
  unfold rssiDelta i8abs wrap8; split <;> omega

/-! ## BaselineTracker lemmas -/

theorem processObs_motion_of_warmup {counter : Nat} (h : counter ≤ 5)
    (idx : Nat) (slots : List Slot) (motion : Bool) (o : Obs) :
    (processObs counter idx slots motion o).2 = motion := by
  have h5 : (5 < counter) = False := eq_false (by omega)
  unfold processObs
  simp only [h5, and_false, if_false]
  split <;> rfl

theorem runObs_motion_of_warmup {counter : Nat} (h : counter ≤ 5) :
    ∀ (os : List Obs) (idx : Nat) (slots : List Slot) (motion : Bool),
      (runObs counter idx slots motion os).2 = motion := by
  intro os
  induction os with
  | nil => intro idx slots motion; rfl
  | cons o os ih =>
    intro idx slots motion
    unfold runObs
    rw [ih, processObs_motion_of_warmup h]

/-- C5: with `cycleCount ≤ 5` (the `counter > 5` guard at main.rs line 109
unsatisfied), the cycle's motion flag is false whatever the observations
and their deltas are. -/
theorem motion_false_during_warmup (counter : Nat) (slots : List Slot)
    (obs : List Obs) (h : counter ≤ 5) :
    (BaselineTracker.update counter slots obs).motion = false := by
  unfold BaselineTracker.update
  exact runObs_motion_of_warmup h _ _ _ _

/-- Witness for `motion_false_during_warmup`: at cycle 3 a tracked network
whose signal jumped by 100 dBm still reports no motion. -/
theorem motion_false_during_warmup_witness :
    (3 : Nat) ≤ 5 ∧
    (BaselineTracker.update 3 ((⟨some "A", -100⟩ : Slot) :: List.replicate 9 ⟨none, -100⟩)
      [⟨"A", 0, 1⟩]).motion = false :=
  ⟨by decide, motion_false_during_warmup 3 _ _ (by decide)⟩

/-- C6: the baseline update is exactly the truncating-toward-zero EMA
`(oldBaseline*90 + signal*10) / 100`, computed in i16 and narrowed back to
i8 losslessly (`tdiv` is truncation toward zero); and concretely, a slot
at baseline −40 observed at −30 in cycle 6 yields motion and new baseline
−39. -/
theorem ema_truncating_update (b r : Int) (hb1 : -128 ≤ b) (hb2 : b ≤ 127)
    (hr1 : -128 ≤ r) (hr2 : r ≤ 127) :
    emaUpdate b r = tdiv (b * 90 + r * 10) 100 ∧
    (BaselineTracker.update 6 ((⟨some "A", -40⟩ : Slot) :: List.replicate 9 ⟨none, -100⟩)
      [⟨"A", -30, 1⟩]).motion = true ∧
    ((BaselineTracker.update 6 ((⟨some "A", -40⟩ : Slot) :: List.replicate 9 ⟨none, -100⟩)
      [⟨"A", -30, 1⟩]).slots.getD 0 ⟨none, -100⟩).rssi = -39 :=
  ⟨emaUpdate_eq hb1 hb2 hr1 hr2, by decide, by decide⟩

/-- Witness for `ema_truncating_update` at the claim's own numbers. -/
theorem ema_truncating_update_witness :
    (-128 : Int) ≤ -40 ∧ (-40 : Int) ≤ 127 ∧ (-128 : Int) ≤ -30 ∧ (-30 : Int) ≤ 127 ∧
    emaUpdate (-40) (-30) = tdiv ((-40) * 90 + (-30) * 10) 100 :=
  ⟨by decide, by decide, by decide, by decide,
    (ema_truncating_update (-40) (-30) (by decide) (by decide) (by decide) (by decide)).1⟩

/-- C2 (code bug): the delta at main.rs line 108 is taken in `i8`, not in a
widened type.  With baseline −125 and a new signal of 127 the true
absolute difference is 252, but the 8-bit subtraction wraps to −4 and the
computed delta is 4, so the `delta > 4` motion test fails at cycle 6 even
though the spec's widened delta (252 > 4) mandates motion. -/
theorem delta_not_widened :
    rssiDelta 127 (-125) = 4 ∧ (127 : Int) - (-125) = 252 ∧
    (BaselineTracker.update 6 ((⟨some "A", -125⟩ : Slot) :: List.replicate 9 ⟨none, -100⟩)
      [⟨"A", 127, 1⟩]).motion = false := by decide

theorem getD_set_of_lt {α : Type _} (l : List α) (i : Nat) (a d : α)
    (h : i < l.length) : (l.set i a).getD i d = a := by
  rw [List.getD_eq_getElem?_getD, List.getElem?_set_eq_of_lt a h, Option.getD_some]

/-- C1 counterexample: after cycle 0 tracks "A" in slot 0, an unseen name
"B" arriving at observation index 0 of cycle 1 is NOT allocated a slot,
although only one of the ten slots is occupied — the code (main.rs lines
98-104) only ever allocates the slot whose index equals the observation's
index within the cycle, not "the next free slot". -/
theorem alloc_skipped_counterexample :
    occupiedCount (BaselineTracker.update 0 initSlots [⟨"A", -50, 1⟩]).slots = 1 ∧
    findIdx (BaselineTracker.update 0 initSlots [⟨"A", -50, 1⟩]).slots (ssidOwned "B") = none ∧
    ((BaselineTracker.update 1 (BaselineTracker.update 0 initSlots [⟨"A", -50, 1⟩]).slots
      [⟨"B", -60, 1⟩]).slots.all (fun sl => sl.ssid ≠ some "B")) = true := by decide

/-- C1 (amended): if an observation's name matches no occupied slot AND the
slot at the observation's own index within the cycle is free, then that
slot is allocated: after the update it carries the (bounded) name with
baseline exactly the observed signal, and the observation contributes no
motion evidence in that cycle (the motion flag is passed through
unchanged). -/
theorem alloc_at_observation_index (counter idx : Nat) (slots : List Slot)
    (motion : Bool) (o : Obs) (hlen : slots.length = 10) (hidx : idx < 10)
    (hfind : findIdx slots (ssidOwned o.ssid) = none)
    (hfree : (slots.getD idx ⟨none, -100⟩).ssid = none)
    (hr1 : -128 ≤ o.rssi) (hr2 : o.rssi ≤ 127) :
    (processObs counter idx slots motion o).1.getD idx ⟨none, -100⟩ =
      ⟨some (ssidOwned o.ssid), o.rssi⟩ ∧
    (processObs counter idx slots motion o).2 = motion := by
  have hlt : idx < slots.length := by omega
  have hlt2 : idx < (slots.set idx ⟨some (ssidOwned o.ssid), o.rssi⟩).length := by
    simpa using hlt
  unfold processObs
  simp only [hfind, hfree, hidx, Option.isNone_none, if_true, and_true, true_and, if_pos]
  simp only [getD_set_of_lt _ _ _ _ hlt, rssiDelta_self, emaUpdate_self hr1 hr2]
  constructor
  · rw [getD_set_of_lt _ _ _ _ hlt2]
  · rw [if_neg]; rintro ⟨h4, _⟩; omega

/-- Witness for `alloc_at_observation_index`: the very first observation of
a fresh tracker allocates slot 0 at its own signal with no motion. -/
theorem alloc_at_observation_index_witness :
    initSlots.length = 10 ∧ (0 : Nat) < 10 ∧
    findIdx initSlots (ssidOwned "A") = none ∧
    (initSlots.getD 0 ⟨none, -100⟩).ssid = none ∧
    (-128 : Int) ≤ -50 ∧ (-50 : Int) ≤ 127 ∧
    ((processObs 0 0 initSlots false ⟨"A", -50, 1⟩).1.getD 0 ⟨none, -100⟩ =
      ⟨some (ssidOwned "A"), -50⟩ ∧
    (processObs 0 0 initSlots false ⟨"A", -50, 1⟩).2 = false) :=
  ⟨by decide, by decide, by decide, by decide, by decide, by decide,
    alloc_at_observation_index 0 0 initSlots false ⟨"A", -50, 1⟩
      (by decide) (by decide) (by decide) (by decide) (by decide) (by decide)⟩

/-- C10: a scan name longer than 32 UTF-8 bytes fails the
`heapless::String::<32>::try_from` conversion and collapses to `""`
(main.rs lines 83-84), so all such names (and the genuinely empty name)
share one tracking key, while the telemetry echo still carries the raw
original name. -/
theorem long_ssid_collapses (n1 n2 : String) (h1 : 32 < byteLen n1)
    (h2 : 32 < byteLen n2) (r : Int) (ch counter : Nat) (slots : List Slot) :
    ssidOwned n1 = "" ∧ ssidOwned n2 = ssidOwned n1 ∧ ssidOwned "" = "" ∧
    (BaselineTracker.update counter slots [⟨n1, r, ch⟩]).echo = [(n1, r, ch)] := by
  have e1 : ssidOwned n1 = "" := by unfold ssidOwned; rw [if_neg (by omega)]
  have e2 : ssidOwned n2 = "" := by unfold ssidOwned; rw [if_neg (by omega)]
  refine ⟨e1, by rw [e1, e2], rfl, ?_⟩
  unfold BaselineTracker.update
  simp

/-- Witness for `long_ssid_collapses` with two distinct 33-byte names. -/
theorem long_ssid_collapses_witness :
    32 < byteLen "aaaaaaaaaaaaaaaaaaaaaaaaaaaaaaaaa" ∧
    32 < byteLen "bbbbbbbbbbbbbbbbbbbbbbbbbbbbbbbbb" ∧
    ssidOwned "aaaaaaaaaaaaaaaaaaaaaaaaaaaaaaaaa" = "" ∧
    ssidOwned "bbbbbbbbbbbbbbbbbbbbbbbbbbbbbbbbb" =
      ssidOwned "aaaaaaaaaaaaaaaaaaaaaaaaaaaaaaaaa" ∧
    (BaselineTracker.update 0 initSlots
      [⟨"aaaaaaaaaaaaaaaaaaaaaaaaaaaaaaaaa", -50, 1⟩]).echo =
      [("aaaaaaaaaaaaaaaaaaaaaaaaaaaaaaaaa", -50, 1)] :=
  ⟨by decide, by decide,
    (long_ssid_collapses "aaaaaaaaaaaaaaaaaaaaaaaaaaaaaaaaa"
      "bbbbbbbbbbbbbbbbbbbbbbbbbbbbbbbbb" (by decide) (by decide) (-50) 1 0 initSlots).1,
    (long_ssid_collapses "aaaaaaaaaaaaaaaaaaaaaaaaaaaaaaaaa"
      "bbbbbbbbbbbbbbbbbbbbbbbbbbbbbbbbb" (by decide) (by decide) (-50) 1 0 initSlots).2.1,
    (long_ssid_collapses "aaaaaaaaaaaaaaaaaaaaaaaaaaaaaaaaa"
      "bbbbbbbbbbbbbbbbbbbbbbbbbbbbbbbbb" (by decide) (by decide) (-50) 1 0 initSlots).2.2.2⟩

/-! ## Ingester read-loop, log and decode-failure claims -/

/-- C3 counterexample: a non-timeout transport read error does NOT
terminate the ingestion thread — the catch-all `_` arm (host main.rs
lines 117-119) sleeps 10 ms and retries, exactly as for a timeout. -/
theorem fatal_error_retries_counterexample :
    readDispatch ReadOutcome.errOther = IngestAction.backoffRetry ∧
    readDispatch ReadOutcome.errOther ≠ IngestAction.terminate := by decide

/-- C3 (amended): every read outcome other than a successful positive-length
read — timeouts, zero-byte reads, and all other errors alike — takes the
fixed 10 ms backoff-and-retry path; no read outcome ever terminates the
ingestion loop (SharedState is only ever touched on the processing path). -/
theorem read_errors_backoff_and_retry (o : ReadOutcome) :
    readDispatch o ≠ IngestAction.terminate ∧
    (readDispatch o = IngestAction.backoffRetry ∨
      ∃ c, o = ReadOutcome.ok c ∧ 0 < c.length ∧
        readDispatch o = IngestAction.process c) := by
  cases o with
  | ok c =>
    by_cases h : 0 < c.length
    · exact ⟨by simp [readDispatch, h], Or.inr ⟨c, rfl, h, by simp [readDispatch, h]⟩⟩
    · exact ⟨by simp [readDispatch, h], Or.inl (by simp [readDispatch, h])⟩
  | errTimeout => exact ⟨by simp [readDispatch], Or.inl rfl⟩
  | errOther => exact ⟨by simp [readDispatch], Or.inl rfl⟩

/-- C9: a line that fails the strict decode is appended to the log as
`Raw: <line>`, `latest_data` is left unchanged, and the handler returns
normally into the loop (host main.rs lines 101-114). -/
theorem decode_failure_logged_raw (st : HostState) (line : String)
    (h : decodeStr line = none) :
    (handleLine st line).latest = st.latest ∧
    (handleLine st line).messages = pushTrim st.messages ("Raw: " ++ line) := by
  unfold handleLine
  rw [h]
  exact ⟨rfl, rfl⟩

/-- Witness for `decode_failure_logged_raw` on the undecodable line
`hello`. -/
theorem decode_failure_logged_raw_witness :
    decodeStr "hello" = none ∧
    (handleLine ⟨none, ["x"]⟩ "hello").latest = (⟨none, ["x"]⟩ : HostState).latest ∧
    (handleLine ⟨none, ["x"]⟩ "hello").messages = pushTrim ["x"] ("Raw: " ++ "hello") :=
  ⟨by decide, decode_failure_logged_raw ⟨none, ["x"]⟩ "hello" (by decide)⟩

theorem pushTrim_of_le (log : List String) (m : String) (h : log.length ≤ 99) :
    pushTrim log m = log ++ [m] := by
  show (if 100 < (log ++ [m]).length then (log ++ [m]).drop 1 else log ++ [m]) = log ++ [m]
  rw [if_neg (by simp; omega)]

theorem pushTrim_of_full (log : List String) (m : String) (h : 100 ≤ log.length) :
    pushTrim log m = (log ++ [m]).drop 1 := by
  show (if 100 < (log ++ [m]).length then (log ++ [m]).drop 1 else log ++ [m]) =
    (log ++ [m]).drop 1
  rw [if_pos (by simp; omega)]

theorem foldl_pushTrim_drop (entries : List String) :
    List.foldl pushTrim [] entries = entries.drop (entries.length - 100) := by
  induction entries using List.reverseRecOn with
  | nil => rfl
  | append_singleton es m ih =>
    rw [List.foldl_append, List.foldl_cons, List.foldl_nil, ih]
    by_cases h : es.length ≤ 99
    · rw [pushTrim_of_le _ _ (by simp [List.length_drop]; omega)]
      have h0 : es.length - 100 = 0 := by omega
      have h1 : (es ++ [m]).length - 100 = 0 := by simp; omega
      rw [h0, h1, List.drop_zero, List.drop_zero]
    · have hlen : (es.drop (es.length - 100)).length = 100 := by
        simp [List.length_drop]; omega
      have h1 : (es ++ [m]).length - 100 = (es.length - 100) + 1 := by simp; omega
      rw [pushTrim_of_full _ _ (by omega), h1,
        List.drop_append_of_le_length (by omega), List.drop_drop,
        List.drop_append_of_le_length (by omega)]

/-- C7: the message log, fed one entry per handled line through the
push-then-cap discipline of host main.rs lines 104-114, always holds at
most 100 entries, in insertion order with the oldest evicted first: the
retained log is exactly the last 100 entries appended.  In particular
appending the 105 entries "1".."105" to an empty log retains exactly
entries "6".."105" in order. -/
theorem log_capped_fifo :
    (∀ entries : List String,
      List.foldl pushTrim [] entries = entries.drop (entries.length - 100) ∧
      (List.foldl pushTrim [] entries).length ≤ 100) ∧
    List.foldl pushTrim [] ((List.range 105).map (fun i => natString (i + 1))) =
      ((List.range 105).map (fun i => natString (i + 1))).drop 5 := by
  have main : ∀ entries : List String,
      List.foldl pushTrim [] entries = entries.drop (entries.length - 100) := by
    intro entries; exact foldl_pushTrim_drop entries
  refine ⟨fun entries => ⟨main entries, ?_⟩, ?_⟩
  · rw [main entries]; simp [List.length_drop]; omega
  · rw [main]; simp

/-! ## LineReassembler lemmas -/

theorem splitBuf_no_line : ∀ {l : List Char}, (splitBuf l).1 = [] → (splitBuf l).2 = l := by
  intro l
  induction l with
  | nil => intro _; rfl
  | cons c cs ih =>
    intro h
    unfold splitBuf at h ⊢
    by_cases hc : c = '\n'
    · simp [hc] at h
    · simp only [if_neg hc] at h ⊢
      cases hls : (splitBuf cs).1 with
      | nil => simp only [hls] at h ⊢; rw [ih hls]
      | cons l' ls' => simp [hls] at h

theorem splitBuf_of_no_newline : ∀ {l : List Char}, '\n' ∉ l → splitBuf l = ([], l) := by
  intro l
  induction l with
  | nil => intro _; rfl
  | cons c cs ih =>
    intro h
    have hc : c ≠ '\n' := fun hx => h (hx ▸ List.mem_cons_self c cs)
    have hcs : '\n' ∉ cs := fun hx => h (List.mem_cons_of_mem c hx)
    unfold splitBuf
    rw [ih hcs]
    simp [hc]

theorem splitBuf_buf_no_newline : ∀ (l : List Char), '\n' ∉ (splitBuf l).2 := by
  intro l
  induction l with
  | nil => simp [splitBuf]
  | cons c cs ih =>
    unfold splitBuf
    by_cases hc : c = '\n'
    · simpa [hc] using ih
    · simp only [if_neg hc]
      cases hls : (splitBuf cs).1 with
      | nil =>
        simp only [hls]
        intro hmem
        rcases List.mem_cons.mp hmem with h1 | h2
        · exact hc h1.symm
        · exact ih h2
      | cons l' ls' => simpa [hls] using ih

theorem splitBuf_cons_newline (cs : List Char) :
    splitBuf ('\n' :: cs) = ([] :: (splitBuf cs).1, (splitBuf cs).2) := by
  conv_lhs => unfold splitBuf
  simp

theorem splitBuf_cons_other_nil {c : Char} (hc : c ≠ '\n') {cs : List Char}
    (h : (splitBuf cs).1 = []) : splitBuf (c :: cs) = ([], c :: (splitBuf cs).2) := by
  conv_lhs => unfold splitBuf
  simp [hc, h]

theorem splitBuf_cons_other_cons {c : Char} (hc : c ≠ '\n') {cs : List Char}
    {l : List Char} {ls : List (List Char)} (h : (splitBuf cs).1 = l :: ls) :
    splitBuf (c :: cs) = ((c :: l) :: ls, (splitBuf cs).2) := by
  conv_lhs => unfold splitBuf
  simp [hc, h]

theorem splitBuf_append (xs ys : List Char) :
    splitBuf (xs ++ ys) =
      ((splitBuf xs).1 ++ (splitBuf ((splitBuf xs).2 ++ ys)).1,
        (splitBuf ((splitBuf xs).2 ++ ys)).2) := by
  induction xs with
  | nil => simp [splitBuf]
  | cons c xs ih =>
    by_cases hc : c = '\n'
    · subst hc
      rw [List.cons_append, splitBuf_cons_newline, splitBuf_cons_newline, ih]
      simp
    · cases hls : (splitBuf xs).1 with
      | nil =>
        have hbuf : (splitBuf xs).2 = xs := splitBuf_no_line hls
        rw [splitBuf_cons_other_nil hc hls, hbuf]
        simp [List.cons_append]
      | cons l ls =>
        have h1 : (splitBuf (xs ++ ys)).1 =
            l :: (ls ++ (splitBuf ((splitBuf xs).2 ++ ys)).1) := by
          rw [ih, hls]; rfl
        rw [List.cons_append, splitBuf_cons_other_cons hc h1,
          splitBuf_cons_other_cons hc hls, ih]
        simp

theorem emitLines_append (a b : List (List Char)) :
    emitLines (a ++ b) = emitLines a ++ emitLines b := by
  simp [emitLines]

theorem feedChars_def (b c : List Char) :
    feedChars b c = (emitLines (splitBuf (b ++ c)).1, (splitBuf (b ++ c)).2) := rfl

theorem feedCharsAll_eq_flatten :
    ∀ (chunks : List (List Char)) (buf : List Char), '\n' ∉ buf →
      feedCharsAll buf chunks = feedChars buf chunks.flatten := by
  intro chunks
  induction chunks with
  | nil =>
    intro buf h
    show ([], buf) = feedChars buf []
    rw [feedChars_def, List.append_nil, splitBuf_of_no_newline h]
    rfl
  | cons ch rest ih =>
    intro buf h
    have hb2 : '\n' ∉ (feedChars buf ch).2 := by
      rw [feedChars_def]; exact splitBuf_buf_no_newline (buf ++ ch)
    show ((feedChars buf ch).1 ++ (feedCharsAll (feedChars buf ch).2 rest).1,
        (feedCharsAll (feedChars buf ch).2 rest).2) = feedChars buf (ch :: rest).flatten
    rw [ih _ hb2]
    simp only [feedChars_def, List.flatten_cons]
    rw [← List.append_assoc buf ch rest.flatten,
      splitBuf_append (buf ++ ch) rest.flatten, emitLines_append]

theorem char_valid_nat (c : Char) :
    c.toNat < 55296 ∨ (57343 < c.toNat ∧ c.toNat < 1114112) := by
  rcases c.valid with h | ⟨h1, h2⟩
  · exact Or.inl (UInt32.toNat_lt_of_lt (by decide) h)
  · exact Or.inr ⟨UInt32.lt_toNat_of_lt (by decide) h1,
      UInt32.toNat_lt_of_lt (by decide) h2⟩

theorem utf8LossyAux_nil (fuel : Nat) : utf8LossyAux fuel [] = [] := by
  cases fuel <;> rfl

theorem utf8LossyAux_ascii {b : Nat} (h : b ≤ 0x7F) (fuel : Nat) (bs : List Nat) :
    utf8LossyAux (fuel + 1) (b :: bs) = Char.ofNat b :: utf8LossyAux fuel bs := by
  conv_lhs => unfold utf8LossyAux
  rw [if_pos h]

theorem utf8LossyAux_two {b b2 : Nat} (h1 : 0xC2 ≤ b) (h2 : b ≤ 0xDF)
    (h3 : 0x80 ≤ b2) (h4 : b2 ≤ 0xBF) (fuel : Nat) (bs : List Nat) :
    utf8LossyAux (fuel + 1) (b :: b2 :: bs) =
      Char.ofNat ((b - 0xC0) * 64 + (b2 - 0x80)) :: utf8LossyAux fuel bs := by
  conv_lhs => unfold utf8LossyAux
  rw [if_neg (by omega), if_pos ⟨h1, h2⟩]
  try dsimp only
  rw [if_pos ⟨h3, h4⟩]

theorem utf8LossyAux_three {b b2 b3 : Nat} (hb : 0xE0 ≤ b ∧ b ≤ 0xEF)
    (h2 : (b = 0xE0 ∧ 0xA0 ≤ b2 ∧ b2 ≤ 0xBF) ∨
      (0xE1 ≤ b ∧ b ≤ 0xEC ∧ 0x80 ≤ b2 ∧ b2 ≤ 0xBF) ∨
      (b = 0xED ∧ 0x80 ≤ b2 ∧ b2 ≤ 0x9F) ∨
      (0xEE ≤ b ∧ 0x80 ≤ b2 ∧ b2 ≤ 0xBF))
    (h3 : 0x80 ≤ b3 ∧ b3 ≤ 0xBF) (fuel : Nat) (bs : List Nat) :
    utf8LossyAux (fuel + 1) (b :: b2 :: b3 :: bs) =
      Char.ofNat ((b - 0xE0) * 4096 + (b2 - 0x80) * 64 + (b3 - 0x80)) ::
        utf8LossyAux fuel bs := by
  conv_lhs => unfold utf8LossyAux
  rw [if_neg (by omega), if_neg (by omega), if_pos hb]
  try dsimp only
  rw [if_pos h2]
  try dsimp only
  rw [if_pos h3]

theorem utf8LossyAux_four {b b2 b3 b4 : Nat} (hb : 0xF0 ≤ b ∧ b ≤ 0xF4)
    (h2 : (b = 0xF0 ∧ 0x90 ≤ b2 ∧ b2 ≤ 0xBF) ∨
      (0xF1 ≤ b ∧ b ≤ 0xF3 ∧ 0x80 ≤ b2 ∧ b2 ≤ 0xBF) ∨
      (b = 0xF4 ∧ 0x80 ≤ b2 ∧ b2 ≤ 0x8F))
    (h3 : 0x80 ≤ b3 ∧ b3 ≤ 0xBF) (h4 : 0x80 ≤ b4 ∧ b4 ≤ 0xBF)
    (fuel : Nat) (bs : List Nat) :
    utf8LossyAux (fuel + 1) (b :: b2 :: b3 :: b4 :: bs) =
      Char.ofNat ((b - 0xF0) * 262144 + (b2 - 0x80) * 4096 +
        (b3 - 0x80) * 64 + (b4 - 0x80)) :: utf8LossyAux fuel bs := by
  conv_lhs => unfold utf8LossyAux
  rw [if_neg (by omega), if_neg (by omega), if_neg (by omega), if_pos hb]
  try dsimp only
  rw [if_pos h2]
  try dsimp only
  rw [if_pos h3]
  try dsimp only
  rw [if_pos h4]

theorem utf8LossyAux_charEnc (c : Char) (fuel : Nat) (bs : List Nat) :
    utf8LossyAux (fuel + 1) (charEnc c ++ bs) = c :: utf8LossyAux fuel bs := by
  have hv := char_valid_nat c
  by_cases h1 : c.toNat < 128
  · have he : charEnc c = [c.toNat] := by unfold charEnc; rw [if_pos h1]
    rw [he]
    show utf8LossyAux (fuel + 1) (c.toNat :: bs) = c :: utf8LossyAux fuel bs
    rw [utf8LossyAux_ascii (by omega), Char.ofNat_toNat]
  · by_cases h2 : c.toNat < 2048
    · have he : charEnc c = [192 + c.toNat / 64, 128 + c.toNat % 64] := by
        unfold charEnc; rw [if_neg (by omega), if_pos h2]
      rw [he]
      show utf8LossyAux (fuel + 1)
        ((192 + c.toNat / 64) :: (128 + c.toNat % 64) :: bs) = c :: utf8LossyAux fuel bs
      rw [utf8LossyAux_two (by omega) (by omega) (by omega) (by omega),
        show (192 + c.toNat / 64 - 192) * 64 + (128 + c.toNat % 64 - 128) =
          c.toNat from by omega, Char.ofNat_toNat]
    · by_cases h3 : c.toNat < 65536
      · have he : charEnc c =
            [224 + c.toNat / 4096, 128 + c.toNat / 64 % 64, 128 + c.toNat % 64] := by
          unfold charEnc; rw [if_neg (by omega), if_neg (by omega), if_pos h3]
        rw [he]
        show utf8LossyAux (fuel + 1) ((224 + c.toNat / 4096) ::
          (128 + c.toNat / 64 % 64) :: (128 + c.toNat % 64) :: bs) =
          c :: utf8LossyAux fuel bs
        rw [utf8LossyAux_three (by omega) (by omega) (by omega),
          show (224 + c.toNat / 4096 - 224) * 4096 +
            (128 + c.toNat / 64 % 64 - 128) * 64 + (128 + c.toNat % 64 - 128) =
            c.toNat from by omega, Char.ofNat_toNat]
      · have he : charEnc c = [240 + c.toNat / 262144, 128 + c.toNat / 4096 % 64,
            128 + c.toNat / 64 % 64, 128 + c.toNat % 64] := by
          unfold charEnc
          rw [if_neg (by omega), if_neg (by omega), if_neg (by omega)]
        rw [he]
        show utf8LossyAux (fuel + 1) ((240 + c.toNat / 262144) ::
          (128 + c.toNat / 4096 % 64) :: (128 + c.toNat / 64 % 64) ::
          (128 + c.toNat % 64) :: bs) = c :: utf8LossyAux fuel bs
        rw [utf8LossyAux_four (by omega) (by omega) (by omega) (by omega),
          show (240 + c.toNat / 262144 - 240) * 262144 +
            (128 + c.toNat / 4096 % 64 - 128) * 4096 +
            (128 + c.toNat / 64 % 64 - 128) * 64 + (128 + c.toNat % 64 - 128) =
            c.toNat from by omega, Char.ofNat_toNat]

theorem charEnc_len (c : Char) : 1 ≤ (charEnc c).length := by
  simp only [charEnc]
  split_ifs <;> simp

theorem utf8Encode_len : ∀ cs : List Char, cs.length ≤ (utf8Encode cs).length := by
  intro cs
  induction cs with
  | nil => simp [utf8Encode]
  | cons c rest ih =>
    have h1 := charEnc_len c
    have he : utf8Encode (c :: rest) = charEnc c ++ utf8Encode rest := by
      simp [utf8Encode]
    rw [he]
    simp only [List.length_cons, List.length_append]
    omega

theorem utf8LossyAux_encode : ∀ (cs : List Char) (fuel : Nat), cs.length ≤ fuel →
    utf8LossyAux fuel (utf8Encode cs) = cs := by
  intro cs
  induction cs with
  | nil =>
    intro fuel _
    exact utf8LossyAux_nil fuel
  | cons c rest ih =>
    intro fuel hf
    match fuel with
    | 0 => simp at hf
    | f + 1 =>
      have he : utf8Encode (c :: rest) = charEnc c ++ utf8Encode rest := by
        simp [utf8Encode]
      rw [he, utf8LossyAux_charEnc, ih f (by simp at hf; omega)]

theorem utf8Lossy_encode (cs : List Char) : utf8Lossy (utf8Encode cs) = cs := by
  unfold utf8Lossy
  exact utf8LossyAux_encode cs _ (utf8Encode_len cs)

theorem feedAll_map_encode :
    ∀ (chunks : List (List Char)) (buf : List Char),
      feedAll buf (chunks.map utf8Encode) = feedCharsAll buf chunks := by
  intro chunks
  induction chunks with
  | nil => intro buf; rfl
  | cons ch rest ih =>
    intro buf
    show ((feed buf (utf8Encode ch)).1 ++
        (feedAll (feed buf (utf8Encode ch)).2 (rest.map utf8Encode)).1,
      (feedAll (feed buf (utf8Encode ch)).2 (rest.map utf8Encode)).2) = _
    have hfeed : feed buf (utf8Encode ch) = feedChars buf ch := by
      show feedChars buf (utf8Lossy (utf8Encode ch)) = feedChars buf ch
      rw [utf8Lossy_encode]
    rw [hfeed, ih]
    rfl

/-- C8 counterexample: splitting the byte stream `A é \n` (bytes
65 C3 A9 0A) inside the two-byte character é makes each half decode
lossily to U+FFFD, so the two-chunk feed yields the line A�� while the
one-chunk feed yields Aé — the reassembler is NOT invariant under
arbitrary byte splits. -/
theorem reassembly_byte_split_counterexample :
    feedAll [] [[65, 195], [169, 10]] = (["A��"], []) ∧
    feed [] ([65, 195] ++ [169, 10]) = (["Aé"], []) ∧
    feedAll [] [[65, 195], [169, 10]] ≠ feed [] ([65, 195] ++ [169, 10]) := by
  decide

/-- C8 (amended): the LineReassembler yields the same complete trimmed
lines (and final buffer) regardless of how the input byte stream is split
across feed calls, PROVIDED every split falls on a UTF-8 character
boundary — i.e. for every sequence of character chunks, feeding their
UTF-8 encodings one by one equals feeding the encoding of their
concatenation in one call (a split inside a multibyte character is not
invariant, since each chunk is lossily decoded in isolation).
Concretely, the two-chunk ASCII split of the claim yields no line after
the first call and exactly `{"counter":1,"motion":0,"aps":[]}` after the
second. -/
theorem reassembly_split_invariant :
    (∀ chunks : List (List Char),
      feedAll [] (chunks.map utf8Encode) = feed [] (utf8Encode chunks.flatten)) ∧
    feed [] (utf8Encode "\x7b\"counter\":1,\"mo".toList) =
      ([], "\x7b\"counter\":1,\"mo".toList) ∧
    feed "\x7b\"counter\":1,\"mo".toList (utf8Encode "tion\":0,\"aps\":[]\x7d\n".toList) =
      (["\x7b\"counter\":1,\"motion\":0,\"aps\":[]\x7d"], []) :=
  ⟨fun chunks => by
    rw [feedAll_map_encode]
    show feedCharsAll [] chunks = feedChars [] (utf8Lossy (utf8Encode chunks.flatten))
    rw [utf8Lossy_encode]
    exact feedCharsAll_eq_flatten chunks [] (by simp),
    by decide, by decide⟩

/-! ## Codec round-trip lemmas -/

theorem digitChar_isDigit {m : Nat} (h : m < 10) : isDigit (digitChar m) = true := by
  interval_cases m <;> decide

theorem digitChar_toNat {m : Nat} (h : m < 10) : (digitChar m).toNat = 48 + m := by
  interval_cases m <;> decide

theorem natCharsAux_digits : ∀ (fuel n : Nat), n < fuel →
    ∀ c ∈ natCharsAux fuel n, isDigit c = true := by
  intro fuel
  induction fuel with
  | zero => intro n h; omega
  | succ fuel ih =>
    intro n h c hc
    unfold natCharsAux at hc
    by_cases h10 : n < 10
    · rw [if_pos h10] at hc
      simp at hc
      exact hc ▸ digitChar_isDigit h10
    · rw [if_neg h10] at hc
      rcases List.mem_append.mp hc with h1 | h2
      · exact ih (n / 10) (by omega) c h1
      · simp at h2
        exact h2 ▸ digitChar_isDigit (by omega)

theorem natCharsAux_ne : ∀ (fuel n : Nat), n < fuel → natCharsAux fuel n ≠ [] := by
  intro fuel
  induction fuel with
  | zero => intro n h; omega
  | succ fuel _ =>
    intro n _
    unfold natCharsAux
    by_cases h10 : n < 10
    · rw [if_pos h10]; simp
    · rw [if_neg h10]; simp

theorem foldl_digits : ∀ (fuel n a : Nat), n < fuel →
    List.foldl (fun a c => a * 10 + (c.toNat - 48)) a (natCharsAux fuel n) =
      a * 10 ^ (natCharsAux fuel n).length + n := by
  intro fuel
  induction fuel with
  | zero => intro n a h; omega
  | succ fuel ih =>
    intro n a h
    unfold natCharsAux
    by_cases h10 : n < 10
    · rw [if_pos h10]
      simp [digitChar_toNat h10]
    · rw [if_neg h10]
      rw [List.foldl_append, ih (n / 10) a (by omega)]
      simp only [List.foldl_cons, List.foldl_nil, List.length_append, List.length_cons,
        List.length_nil]
      rw [digitChar_toNat (m := n % 10) (by omega)]
      have hmod : 48 + n % 10 - 48 = n % 10 := by omega
      rw [hmod, pow_succ]
      have hstep : (a * 10 ^ (natCharsAux fuel (n / 10)).length + n / 10) * 10 + n % 10 =
          a * (10 ^ (natCharsAux fuel (n / 10)).length * 10) + (10 * (n / 10) + n % 10) := by
        ring
      rw [hstep, Nat.div_add_mod]

theorem digitsVal_natChars (n : Nat) : digitsVal (natChars n) = n := by
  unfold digitsVal natChars
  rw [foldl_digits (n + 1) n 0 (by omega)]
  simp

theorem natChars_digits (n : Nat) : ∀ c ∈ natChars n, isDigit c = true :=
  natCharsAux_digits (n + 1) n (by omega)

theorem natChars_ne (n : Nat) : natChars n ≠ [] :=
  natCharsAux_ne (n + 1) n (by omega)

theorem expects_append (pat rest : List Char) : expects pat (pat ++ rest) = some rest := by
  induction pat with
  | nil => rfl
  | cons c cs ih => simp [expects, ih]

theorem parseNat_append {ds : List Char} (rest : List Char) (hne : ds ≠ [])
    (hds : ∀ c ∈ ds, isDigit c = true)
    (hrest : ∀ c, rest.head? = some c → isDigit c = false) :
    parseNat (ds ++ rest) = some (digitsVal ds, rest) := by
  have htake : (ds ++ rest).takeWhile isDigit = ds := by
    rw [List.takeWhile_append_of_pos (by simpa using hds)]
    cases rest with
    | nil => simp
    | cons r rs => simp [List.takeWhile_cons, hrest r rfl]
  have hdrop : (ds ++ rest).dropWhile isDigit = rest := by
    rw [List.dropWhile_append_of_pos (by simpa using hds)]
    cases rest with
    | nil => simp
    | cons r rs => simp [List.dropWhile_cons, hrest r rfl]
  unfold parseNat
  simp only [htake, hdrop, if_neg hne]

theorem parseNat_natChars (n : Nat) (rest : List Char)
    (hrest : ∀ c, rest.head? = some c → isDigit c = false) :
    parseNat (natChars n ++ rest) = some (n, rest) := by
  rw [parseNat_append rest (natChars_ne n) (natChars_digits n) hrest,
    digitsVal_natChars]

theorem natChars_head_digit (n : Nat) (rest : List Char) :
    ∃ c, (natChars n ++ rest).head? = some c ∧ isDigit c = true := by
  cases h : natChars n with
  | nil => exact absurd h (natChars_ne n)
  | cons c cs =>
    refine ⟨c, by simp [h], ?_⟩
    exact natChars_digits n c (by simp [h])

theorem parseIntChars_intChars (i : Int) (rest : List Char)
    (hrest : ∀ c, rest.head? = some c → isDigit c = false) :
    parseIntChars (intChars i ++ rest) = some (i, rest) := by
  unfold intChars
  by_cases hneg : i < 0
  · rw [if_pos hneg]
    show parseIntChars ('-' :: (natChars (-i).toNat ++ rest)) = some (i, rest)
    unfold parseIntChars
    rw [if_pos (by simp)]
    simp only [List.tail_cons, parseNat_natChars _ rest hrest, Option.map_some]
    have : ((( -i).toNat : Int)) = -i := Int.toNat_of_nonneg (by omega)
    simp [this]
  · rw [if_neg hneg]
    obtain ⟨c, hc, hd⟩ := natChars_head_digit i.toNat rest
    unfold parseIntChars
    rw [if_neg (by
      rw [hc]
      intro hcontra
      have : c = '-' := by simpa using hcontra
      rw [this] at hd
      simp [isDigit] at hd)]
    rw [parseNat_natChars _ rest hrest]
    simp [Int.toNat_of_nonneg (by omega : (0 : Int) ≤ i)]

theorem parseStrBody_append {name : List Char} (rest : List Char)
    (h : ∀ c ∈ name, c ≠ '"' ∧ c ≠ '\\' ∧ 32 ≤ c.toNat) :
    parseStrBody (name ++ '"' :: rest) = some (name, rest) := by
  induction name with
  | nil => simp [parseStrBody]
  | cons c cs ih =>
    obtain ⟨h1, h2, h3⟩ := h c (List.mem_cons_self c cs)
    show parseStrBody (c :: (cs ++ '"' :: rest)) = some (c :: cs, rest)
    unfold parseStrBody
    rw [if_neg h1, if_neg (by push_neg; exact ⟨h2, by omega⟩)]
    rw [ih (fun c hc => h c (List.mem_cons_of_mem _ hc))]
    rfl

theorem head_notDigit_cons (c0 : Char) (t rest : List Char) (h : isDigit c0 = false) :
    ∀ c, ((c0 :: t) ++ rest).head? = some c → isDigit c = false := by
  intro c hc
  simp only [List.cons_append, List.head?_cons, Option.some.injEq] at hc
  rw [← hc]; exact h

theorem litRssi_cons : litRssi = ',' :: "\"rssi\":".toList := by decide

theorem litCh_cons : litCh = ',' :: "\"ch\":".toList := by decide

theorem litClose_cons : litClose = '\x7d' :: [] := by decide

theorem litMotion_cons : litMotion = ',' :: "\"motion\":".toList := by decide

theorem litAps_cons : litAps = ',' :: "\"aps\":[".toList := by decide

theorem litSsid_cons : litSsid = '\x7b' :: "\"ssid\":\"".toList := by decide

theorem mk_toList (s : String) : String.mk s.toList = s := rfl

theorem parseAP_append (a : AP) (rest : List Char) (h : validAP a) :
    parseAP (encodeAP a ++ rest) = some (a, rest) := by
  obtain ⟨hclean, _, hr1, hr2, hch⟩ := h
  have hassoc : encodeAP a ++ rest =
      litSsid ++ (a.ssid.toList ++ '"' :: (litRssi ++ (intChars a.rssi ++
        (litCh ++ (natChars a.ch ++ (litClose ++ rest)))))) := by
    simp [encodeAP, List.append_assoc]
  unfold parseAP
  rw [hassoc, expects_append]
  simp only [Option.some_bind]
  rw [parseStrBody_append _ hclean]
  simp only [Option.some_bind]
  rw [expects_append]
  simp only [Option.some_bind]
  rw [parseIntChars_intChars _ _
    (by rw [litCh_cons]; exact head_notDigit_cons ',' _ _ (by decide))]
  simp only [Option.some_bind]
  rw [if_pos ⟨hr1, hr2⟩, expects_append]
  simp only [Option.some_bind]
  rw [parseNat_natChars _ _
    (by rw [litClose_cons]; exact head_notDigit_cons '\x7d' _ _ (by decide))]
  simp only [Option.some_bind]
  rw [if_pos hch, expects_append]
  simp [mk_toList]

theorem encodeAP_head (a : AP) (rest : List Char) :
    (encodeAP a ++ rest).head? = some '\x7b' := by
  simp [encodeAP, litSsid_cons]

theorem parseAPsGo_append : ∀ (rest : List AP) (fuel : Nat) (tail : List Char),
    rest.length ≤ fuel → (∀ a ∈ rest, validAP a) →
    parseAPsGo fuel (encodeAPsTail rest ++ ']' :: tail) = some (rest, tail) := by
  intro rest
  induction rest with
  | nil =>
    intro fuel tail _ _
    show parseAPsGo fuel (']' :: tail) = some ([], tail)
    unfold parseAPsGo
    simp
  | cons b rest ih =>
    intro fuel tail hfuel hval
    have harr : encodeAPsTail (b :: rest) ++ ']' :: tail =
        ',' :: (encodeAP b ++ (encodeAPsTail rest ++ ']' :: tail)) := by
      simp [encodeAPsTail, List.append_assoc]
    rw [harr]
    match fuel with
    | 0 => exact absurd hfuel (by simp)
    | fuel' + 1 =>
      unfold parseAPsGo
      rw [List.head?_cons, if_neg (by decide), if_pos rfl]
      simp only [List.tail_cons]
      rw [parseAP_append b _ (hval b (List.mem_cons_self b rest))]
      simp only [Option.some_bind]
      rw [ih fuel' tail (by simp at hfuel ⊢; omega)
        (fun a ha => hval a (List.mem_cons_of_mem b ha))]
      rfl

theorem parseAPs_append (aps : List AP) (fuel : Nat) (tail : List Char)
    (hfuel : aps.length ≤ fuel + 1) (hval : ∀ a ∈ aps, validAP a) :
    parseAPs fuel (encodeAPs aps ++ ']' :: tail) = some (aps, tail) := by
  cases aps with
  | nil =>
    show parseAPs fuel (']' :: tail) = some ([], tail)
    unfold parseAPs
    simp
  | cons a rest =>
    show parseAPs fuel ((encodeAP a ++ encodeAPsTail rest) ++ ']' :: tail) =
      some (a :: rest, tail)
    unfold parseAPs
    rw [List.append_assoc, if_neg (by rw [encodeAP_head]; decide),
      parseAP_append a _ (hval a (List.mem_cons_self a rest))]
    simp only [Option.some_bind]
    rw [parseAPsGo_append rest fuel tail (by simp at hfuel ⊢; omega)
      (fun x hx => hval x (List.mem_cons_of_mem a hx))]
    rfl

theorem encodeAPsTail_len (rest : List AP) :
    rest.length ≤ (encodeAPsTail rest).length := by
  induction rest with
  | nil => simp [encodeAPsTail]
  | cons b r ih => simp [encodeAPsTail]; omega

theorem encodeAPs_len (aps : List AP) : aps.length ≤ (encodeAPs aps).length + 1 := by
  cases aps with
  | nil => simp [encodeAPs]
  | cons a r =>
    have h := encodeAPsTail_len r
    simp [encodeAPs]
    omega

theorem decode_encodeBody (counter : Nat) (motion : Bool) (aps : List AP)
    (hc : counter < 4294967296) (hval : ∀ a ∈ aps, validAP a) :
    decode (encodeBody counter motion aps) =
      some ⟨counter, if motion then 1 else 0, aps⟩ := by
  have hassoc : encodeBody counter motion aps =
      litCounter ++ (natChars counter ++ (litMotion ++
        (natChars (if motion then 1 else 0) ++
          (litAps ++ (encodeAPs aps ++ ']' :: litClose))))) := by
    simp [encodeBody, List.append_assoc]
  unfold decode
  rw [hassoc, expects_append]
  simp only [Option.some_bind]
  rw [parseNat_natChars _ _
    (by rw [litMotion_cons]; exact head_notDigit_cons ',' _ _ (by decide))]
  simp only [Option.some_bind]
  rw [if_pos hc, expects_append]
  simp only [Option.some_bind]
  rw [parseNat_natChars _ _
    (by rw [litAps_cons]; exact head_notDigit_cons ',' _ _ (by decide))]
  simp only [Option.some_bind]
  rw [if_pos (by cases motion <;> decide), expects_append]
  simp only [Option.some_bind]
  rw [parseAPs_append aps _ litClose
    (by have h := encodeAPs_len aps; simp; omega) hval]
  simp only [Option.some_bind]
  have hexp : expects litClose litClose = some [] := by decide
  rw [hexp]
  simp

/-- C4 counterexample: the encoder interpolates the raw name into the JSON
string (main.rs line 132) without escaping, so the valid record with AP
name `a"b` encodes to a line the strict decoder rejects — the round trip
fails. -/
theorem roundtrip_counterexample :
    decode (encodeBody 1 false [⟨"a\"b", -50, 1⟩]) = none ∧
    decode (encodeBody 1 false [⟨"a\"b", -50, 1⟩]) ≠
      some ⟨1, 0, [⟨"a\"b", -50, 1⟩]⟩ := by decide

/-- C4 (amended): for every valid CycleRecord (counter in u32 range, at
most 10 access points, each with i8 signal and u8 channel) whose AP names
contain no double quote, no backslash and no control character, decoding
the line produced by the encoder yields the record back (`motion`
travelling as the 0/1 byte the host struct stores). -/
theorem decode_encode_roundtrip (counter : Nat) (motion : Bool) (aps : List AP)
    (hc : counter < 4294967296) (_hlen : aps.length ≤ 10)
    (hval : ∀ a ∈ aps, validAP a) :
    decode (encodeBody counter motion aps) =
      some ⟨counter, if motion then 1 else 0, aps⟩ :=
  decode_encodeBody counter motion aps hc hval

/-- Witness for `decode_encode_roundtrip` on a one-AP record. -/
theorem decode_encode_roundtrip_witness :
    (7 : Nat) < 4294967296 ∧ ([⟨"net1", -42, 6⟩] : List AP).length ≤ 10 ∧
    (∀ a ∈ ([⟨"net1", -42, 6⟩] : List AP), validAP a) ∧
    decode (encodeBody 7 true [⟨"net1", -42, 6⟩]) =
      some ⟨7, 1, [⟨"net1", -42, 6⟩]⟩ :=
  ⟨by decide, by decide, by decide,
    decode_encode_roundtrip 7 true [⟨"net1", -42, 6⟩] (by decide) (by decide) (by decide)⟩

